import Mathlib

/-!
Verification development for the blockchain minesweeper challenge repository.

The repository has three relevant layers, each embedded shallowly below:

* the verification server (`server.js`): minefield generation
  (`generateMinefield`), game-session creation (`POST /api/new-game`),
  completion verification (`POST /api/verify`, `validateBoardSolution`)
  and the leaderboard query (`GET /api/leaderboard/:contestId`);
* the Solidity contest ledger (`MinesweeperChallenge.sol`):
  `createWeeklyContest`, `enterContest`, `submitGameCompletion`,
  `distributePrizes` and the owner-only parameter setters;
* the client play surface (`MinesweeperGame.jsx`), which is not needed by
  the properties below.

JavaScript numbers are modelled as `Nat` (all relevant quantities are
non-negative integers), `Math.random()`-driven draws as an explicit stream
of samples, MongoDB collections as Lean lists, and the unbounded
`while (mines < mineCount)` loop as a fuel-indexed recursion whose `none`
result means the loop did not finish within the given fuel.  Solidity
`uint256` values are modelled as `Nat`; arithmetic in Solidity 0.8 reverts
on overflow instead of wrapping, so a `Nat` value faithfully tracks every
non-reverting execution.  The SHA-256 hash and the board serialisation
used by the server are opaque to every property below and are passed as
function parameters.
-/

namespace Minesweeper

/-- A cell of a generated board: `"X"` (a mine) or an adjacency count. -/
inductive Cell where
  | mine : Cell
  | num : Nat → Cell
deriving DecidableEq, Repr

/-- The safe-area test of `generateMinefield` in `server.js`:
`Math.abs(x - safeX) <= 1 && Math.abs(y - safeY) <= 1` with
`safeX = Math.floor(width / 2)` and `safeY = Math.floor(height / 2)`. -/
def inSafeArea (width height x y : Nat) : Bool :=
  decide (((x : Int) - (width / 2 : Nat)).natAbs ≤ 1) &&
    decide (((y : Int) - (height / 2 : Nat)).natAbs ≤ 1)

/-- The mine-placement loop of `generateMinefield` in `server.js`.
`samples i` models the `i`-th draw
`(Math.floor(Math.random() * width), Math.floor(Math.random() * height))`;
the accumulator `placed` is the list of cells already set to `"X"` (the
array starts all-zero and phase one only ever writes `"X"`, so the array
test `board[y][x] !== "X"` is list membership).  `fuel` bounds the number
of iterations of the unbounded `while (mines < mineCount)` loop; `none`
means the loop did not finish within `fuel` iterations. -/
def placeMines (width height mineCount : Nat) (samples : Nat → Nat × Nat) :
    Nat → Nat → List (Nat × Nat) → Option (List (Nat × Nat))
  | 0, _, placed => if mineCount ≤ placed.length then some placed else none
  | fuel + 1, i, placed =>
    if mineCount ≤ placed.length then some placed
    else if inSafeArea width height (samples i).1 (samples i).2 then
      placeMines width height mineCount samples fuel (i + 1) placed
    else if samples i ∈ placed then
      placeMines width height mineCount samples fuel (i + 1) placed
    else
      placeMines width height mineCount samples fuel (i + 1) (samples i :: placed)

/-- The eight neighbour offsets `(dx, dy)` visited by the counting pass of
`generateMinefield` (outer loop over `dy`, inner over `dx`, skipping
`(0, 0)`). -/
def neighborOffsets : List (Int × Int) :=
  [(-1, -1), (0, -1), (1, -1), (-1, 0), (1, 0), (-1, 1), (0, 1), (1, 1)]

/-- The adjacency count computed for cell `(x, y)` by `generateMinefield`:
the number of neighbour offsets whose target lies inside the grid and
holds a mine (`nx >= 0 && nx < width && ny >= 0 && ny < height &&
board[ny][nx] === "X"`). -/
def adjacentMines (width height : Nat) (placed : List (Nat × Nat)) (x y : Nat) : Nat :=
  (neighborOffsets.filter fun d =>
    decide (0 ≤ (x : Int) + d.1) && decide ((x : Int) + d.1 < (width : Int)) &&
      decide (0 ≤ (y : Int) + d.2) && decide ((y : Int) + d.2 < (height : Int)) &&
      decide ((((x : Int) + d.1).toNat, ((y : Int) + d.2).toNat) ∈ placed)).length

/-- The board produced by the counting pass of `generateMinefield`: each
mined cell keeps `"X"`, every other cell receives its adjacency count. -/
def buildBoard (width height : Nat) (placed : List (Nat × Nat)) : List (List Cell) :=
  (List.range height).map fun y =>
    (List.range width).map fun x =>
      if (x, y) ∈ placed then Cell.mine
      else Cell.num (adjacentMines width height placed x y)

/-- `generateMinefield(width, height, mineCount)` from `server.js`,
parametrised by the random sample stream and the loop fuel. -/
def generateMinefield (width height mineCount : Nat) (samples : Nat → Nat × Nat)
    (fuel : Nat) : Option (List (List Cell)) :=
  (placeMines width height mineCount samples fuel 0 []).map (buildBoard width height)

/-- `countMines(board)` from `server.js`:
`board.flat().filter((cell) => cell === "X").length`. -/
def countMines (board : List (List Cell)) : Nat :=
  (board.flatten.filter (· = Cell.mine)).length

/-- The cell of `board` at column `x`, row `y` (out-of-range reads default
to a zero count; every use below stays in range). -/
def cellAt (board : List (List Cell)) (x y : Nat) : Cell :=
  (board.getD y []).getD x (Cell.num 0)

/-- All grid coordinates `(x, y)` with `x < width`, `y < height`, row by row. -/
def gridPoints (width height : Nat) : List (Nat × Nat) :=
  (List.range height).flatMap fun y => (List.range width).map fun x => (x, y)

/-- Independent brute-force recount demanded by the spec: the number of
grid cells at Chebyshev distance exactly 1 from `(x, y)` that hold a mine
on the final board.  This is deliberately phrased over the finished board
and the full grid, not over the placement list or the offset loop. -/
def mooreMineCount (width height : Nat) (board : List (List Cell)) (x y : Nat) : Nat :=
  ((gridPoints width height).filter fun p =>
    decide (max ((p.1 : Int) - (x : Int)).natAbs ((p.2 : Int) - (y : Int)).natAbs = 1) &&
      decide (cellAt board p.1 p.2 = Cell.mine)).length

section BoardGeneratorLemmas

lemma mem_gridPoints {width height : Nat} {p : Nat × Nat} :
    p ∈ gridPoints width height ↔ p.1 < width ∧ p.2 < height := by
  obtain ⟨a, b⟩ := p
  unfold gridPoints
  rw [List.mem_flatMap]
  constructor
  · rintro ⟨y, hy, hmem⟩
    rw [List.mem_map] at hmem
    obtain ⟨x, hx, heq⟩ := hmem
    cases heq
    exact ⟨List.mem_range.1 hx, List.mem_range.1 hy⟩
  · rintro ⟨h1, h2⟩
    exact ⟨b, List.mem_range.2 h2, List.mem_map.2 ⟨a, List.mem_range.2 h1, rfl⟩⟩

lemma nodup_gridPoints {width height : Nat} : (gridPoints width height).Nodup := by
  unfold gridPoints
  rw [List.nodup_flatMap]
  refine ⟨fun y _ => ?_, List.Pairwise.imp ?_ (List.nodup_range height)⟩
  · exact (List.nodup_range width).map_on fun a _ b _ h => (Prod.ext_iff.1 h).1
  · intro y₁ y₂ hne p hp1 hp2
    rw [List.mem_map] at hp1 hp2
    obtain ⟨x₁, _, h₁⟩ := hp1
    obtain ⟨x₂, _, h₂⟩ := hp2
    exact hne ((Prod.ext_iff.1 (h₁.trans h₂.symm)).2)

lemma getD_map_range {α : Type} {f : Nat → α} {i n : Nat} (h : i < n) (d : α) :
    ((List.range n).map f).getD i d = f i := by
  rw [List.getD_eq_getElem?_getD, List.getElem?_map, List.getElem?_range h]
  rfl

lemma cellAt_buildBoard {width height : Nat} (placed : List (Nat × Nat)) {x y : Nat}
    (hx : x < width) (hy : y < height) :
    cellAt (buildBoard width height placed) x y =
      if (x, y) ∈ placed then Cell.mine
      else Cell.num (adjacentMines width height placed x y) := by
  unfold cellAt buildBoard
  rw [getD_map_range hy, getD_map_range hx]

/-- A `Nodup` list contained in a `Nodup` universe is counted exactly by
membership. -/
lemma countP_mem_length {α : Type} [DecidableEq α] {l g : List α} (hg : g.Nodup)
    (hl : l.Nodup) (hsub : ∀ a ∈ l, a ∈ g) :
    g.countP (fun a => decide (a ∈ l)) = l.length := by
  rw [List.countP_eq_length_filter]
  refine List.Perm.length_eq ?_
  rw [List.perm_ext_iff_of_nodup (hg.filter _) hl]
  intro a
  rw [List.mem_filter]
  constructor
  · exact fun h => of_decide_eq_true h.2
  · exact fun h => ⟨hsub a h, decide_eq_true h⟩

lemma countMines_buildBoard {width height : Nat} {placed : List (Nat × Nat)}
    (hnd : placed.Nodup) (hgrid : ∀ p ∈ placed, p.1 < width ∧ p.2 < height) :
    countMines (buildBoard width height placed) = placed.length := by
  have h1 : countMines (buildBoard width height placed)
      = (gridPoints width height).countP (fun p => decide (p ∈ placed)) := by
    unfold countMines buildBoard gridPoints
    rw [← List.countP_eq_length_filter, List.flatMap_def, List.countP_flatten,
      List.countP_flatten, List.map_map, List.map_map]
    refine congrArg List.sum (List.map_congr_left fun y hy => ?_)
    simp only [Function.comp_apply, List.countP_map]
    refine List.countP_congr fun x hx => ?_
    by_cases hmem : (x, y) ∈ placed <;> simp [hmem]
  rw [h1]
  exact (List.countP_congr fun a _ => by simp).trans
    (countP_mem_length nodup_gridPoints hnd fun p hp => mem_gridPoints.2 (hgrid p hp))

/-- A grid point at Chebyshev distance exactly 1 from `(x, y)` is the
target of exactly one of the eight neighbour offsets. -/
lemma cheb_offset {x y : Nat} {p : Nat × Nat}
    (h : max ((p.1 : Int) - (x : Int)).natAbs ((p.2 : Int) - (y : Int)).natAbs = 1) :
    ∃ d ∈ neighborOffsets, (x : Int) + d.1 = (p.1 : Int) ∧ (y : Int) + d.2 = (p.2 : Int) := by
  obtain ⟨px, py⟩ := p
  simp only at h
  have ha : (px : Int) - x = -1 ∨ (px : Int) - x = 0 ∨ (px : Int) - x = 1 := by omega
  have hb : (py : Int) - y = -1 ∨ (py : Int) - y = 0 ∨ (py : Int) - y = 1 := by omega
  have hab : ¬((px : Int) - x = 0 ∧ (py : Int) - y = 0) := by omega
  clear h
  refine ⟨((px : Int) - (x : Int), (py : Int) - (y : Int)), ?_, by omega, by omega⟩
  simp only [neighborOffsets, List.mem_cons, List.not_mem_nil, or_false, Prod.ext_iff]
  rcases ha with h1 | h1 | h1 <;> rcases hb with h2 | h2 | h2 <;> simp_all

lemma offset_cheb {x y : Nat} {d : Int × Int} (hd : d ∈ neighborOffsets)
    (h1 : 0 ≤ (x : Int) + d.1) (h2 : 0 ≤ (y : Int) + d.2) :
    max ((((x : Int) + d.1).toNat : Int) - (x : Int)).natAbs
      ((((y : Int) + d.2).toNat : Int) - (y : Int)).natAbs = 1 := by
  simp only [neighborOffsets, List.mem_cons, List.not_mem_nil, or_false, Prod.ext_iff] at hd
  obtain ⟨a, b⟩ := d
  simp only at hd h1 h2 ⊢
  omega

lemma mooreMineCount_buildBoard {width height : Nat} (placed : List (Nat × Nat)) (x y : Nat) :
    mooreMineCount width height (buildBoard width height placed) x y
      = adjacentMines width height placed x y := by
  classical
  have hndR : ((neighborOffsets.filter fun d =>
      decide (0 ≤ (x : Int) + d.1) && decide ((x : Int) + d.1 < (width : Int)) &&
        decide (0 ≤ (y : Int) + d.2) && decide ((y : Int) + d.2 < (height : Int)) &&
        decide ((((x : Int) + d.1).toNat, ((y : Int) + d.2).toNat) ∈ placed)).map
      fun d => (((x : Int) + d.1).toNat, ((y : Int) + d.2).toNat)).Nodup := by
    refine (List.Nodup.filter _ (by decide)).map_on ?_
    intro d₁ h₁ d₂ h₂ heq
    rw [List.mem_filter] at h₁ h₂
    have c₁ := h₁.2
    have c₂ := h₂.2
    simp only [Bool.and_eq_true, decide_eq_true_eq] at c₁ c₂
    obtain ⟨a₁, b₁⟩ := d₁
    obtain ⟨a₂, b₂⟩ := d₂
    simp only [Prod.ext_iff] at heq ⊢
    simp only at c₁ c₂ heq ⊢
    omega
  have hperm : List.Perm
      ((gridPoints width height).filter fun p =>
        decide (max ((p.1 : Int) - (x : Int)).natAbs ((p.2 : Int) - (y : Int)).natAbs = 1) &&
          decide (cellAt (buildBoard width height placed) p.1 p.2 = Cell.mine))
      ((neighborOffsets.filter fun d =>
        decide (0 ≤ (x : Int) + d.1) && decide ((x : Int) + d.1 < (width : Int)) &&
          decide (0 ≤ (y : Int) + d.2) && decide ((y : Int) + d.2 < (height : Int)) &&
          decide ((((x : Int) + d.1).toNat, ((y : Int) + d.2).toNat) ∈ placed)).map
        fun d => (((x : Int) + d.1).toNat, ((y : Int) + d.2).toNat)) := by
    rw [List.perm_ext_iff_of_nodup (nodup_gridPoints.filter _) hndR]
    intro p
    rw [List.mem_filter, List.mem_map]
    constructor
    · rintro ⟨hpg, hcond⟩
      simp only [Bool.and_eq_true, decide_eq_true_eq] at hcond
      obtain ⟨hcheb, hmine⟩ := hcond
      obtain ⟨hx, hy⟩ := mem_gridPoints.1 hpg
      have hmem : p ∈ placed := by
        rw [cellAt_buildBoard placed hx hy] at hmine
        by_cases hm : (p.1, p.2) ∈ placed
        · exact hm
        · simp [hm] at hmine
      obtain ⟨d, hd, hdx, hdy⟩ := cheb_offset hcheb
      refine ⟨d, List.mem_filter.2 ⟨hd, ?_⟩, ?_⟩
      · simp only [Bool.and_eq_true, decide_eq_true_eq]
        have e1 : ((x : Int) + d.1).toNat = p.1 := by omega
        have e2 : ((y : Int) + d.2).toNat = p.2 := by omega
        refine ⟨⟨⟨⟨by omega, by omega⟩, by omega⟩, by omega⟩, ?_⟩
        rw [e1, e2]
        exact hmem
      · have e1 : ((x : Int) + d.1).toNat = p.1 := by omega
        have e2 : ((y : Int) + d.2).toNat = p.2 := by omega
        rw [e1, e2]
    · rintro ⟨d, hd, rfl⟩
      rw [List.mem_filter] at hd
      obtain ⟨hdo, hcond⟩ := hd
      simp only [Bool.and_eq_true, decide_eq_true_eq] at hcond
      obtain ⟨⟨⟨⟨h0x, hxw⟩, h0y⟩, hyh⟩, hmem⟩ := hcond
      have hx : ((x : Int) + d.1).toNat < width := by omega
      have hy : ((y : Int) + d.2).toNat < height := by omega
      refine ⟨mem_gridPoints.2 ⟨hx, hy⟩, ?_⟩
      simp only [Bool.and_eq_true, decide_eq_true_eq]
      refine ⟨offset_cheb hdo h0x h0y, ?_⟩
      rw [cellAt_buildBoard placed hx hy]
      simp [hmem]
  unfold mooreMineCount adjacentMines
  exact hperm.length_eq.trans (by simp)

/-- Every successful run of the placement loop yields exactly `mineCount`
distinct mines, all inside the grid and outside the safe area (assuming
the random draws are in range, as `Math.floor(Math.random() * n) < n`
always is). -/
lemma placeMines_sound {width height mineCount : Nat} {samples : Nat → Nat × Nat}
    (hs : ∀ i, (samples i).1 < width ∧ (samples i).2 < height) :
    ∀ (fuel i : Nat) (placed res : List (Nat × Nat)),
      placed.Nodup → placed.length ≤ mineCount →
      (∀ p ∈ placed, p.1 < width ∧ p.2 < height ∧ inSafeArea width height p.1 p.2 = false) →
      placeMines width height mineCount samples fuel i placed = some res →
      res.Nodup ∧ res.length = mineCount ∧
        ∀ p ∈ res, p.1 < width ∧ p.2 < height ∧ inSafeArea width height p.1 p.2 = false := by
  intro fuel
  induction fuel with
  | zero =>
    intro i placed res hnd hlen hprop hrun
    unfold placeMines at hrun
    split at hrun
    · cases hrun
      exact ⟨hnd, le_antisymm hlen (by assumption), hprop⟩
    · cases hrun
  | succ fuel ih =>
    intro i placed res hnd hlen hprop hrun
    unfold placeMines at hrun
    split at hrun
    · cases hrun
      exact ⟨hnd, le_antisymm hlen (by assumption), hprop⟩
    · rename_i hfull
      split at hrun
      · exact ih (i + 1) placed res hnd hlen hprop hrun
      · split at hrun
        · exact ih (i + 1) placed res hnd hlen hprop hrun
        · rename_i hsafe hmem
          refine ih (i + 1) (samples i :: placed) res (List.nodup_cons.2 ⟨hmem, hnd⟩)
            (by simp; omega) ?_ hrun
          intro p hp
          rcases List.mem_cons.1 hp with rfl | hp'
          · exact ⟨(hs i).1, (hs i).2, Bool.not_eq_true _ ▸ hsafe⟩
          · exact hprop p hp'

end BoardGeneratorLemmas

/-- C2: every board returned by `generateMinefield(width, height, mineCount)`
has exactly `mineCount` mine cells, no mine inside the 3×3 safe block
centred on `(⌊width/2⌋, ⌊height/2⌋)`, and every non-mine cell carries
exactly the number of mines among its up-to-8 Moore neighbours, with
positions outside the grid contributing nothing (restated as a brute-force
recount over the finished board). -/
theorem generateMinefield_correct
    (width height mineCount fuel : Nat) (samples : Nat → Nat × Nat)
    (hs : ∀ i, (samples i).1 < width ∧ (samples i).2 < height)
    (board : List (List Cell))
    (hgen : generateMinefield width height mineCount samples fuel = some board) :
    countMines board = mineCount ∧
      (∀ x y, x < width → y < height → inSafeArea width height x y = true →
        cellAt board x y ≠ Cell.mine) ∧
      (∀ x y n, x < width → y < height → cellAt board x y = Cell.num n →
        n = mooreMineCount width height board x y) := by
  unfold generateMinefield at hgen
  cases hplace : placeMines width height mineCount samples fuel 0 [] with
  | none => rw [hplace] at hgen; cases hgen
  | some placed =>
    rw [hplace] at hgen
    obtain rfl : buildBoard width height placed = board := by simpa using hgen
    obtain ⟨hnd, hlen, hprop⟩ :=
      placeMines_sound hs fuel 0 [] placed (by simp) (by simp) (by simp) hplace
    have hgrid : ∀ p ∈ placed, p.1 < width ∧ p.2 < height :=
      fun p hp => ⟨(hprop p hp).1, (hprop p hp).2.1⟩
    refine ⟨?_, ?_, ?_⟩
    · rw [countMines_buildBoard hnd hgrid]
      exact hlen
    · intro x y hx hy hsafe
      rw [cellAt_buildBoard placed hx hy]
      by_cases hmem : (x, y) ∈ placed
      · rw [(hprop _ hmem).2.2] at hsafe
        cases hsafe
      · simp [hmem]
    · intro x y n hx hy hcell
      rw [cellAt_buildBoard placed hx hy] at hcell
      by_cases hmem : (x, y) ∈ placed
      · simp [hmem] at hcell
      · simp only [hmem, if_false, Cell.num.injEq] at hcell
        rw [mooreMineCount_buildBoard placed x y]
        exact hcell.symm

/-- A fixed in-range sample stream over a 5×5 grid, used by the witnesses. -/
def sampleSeq (i : Nat) : Nat × Nat := (i % 5, i / 5 % 5)

/-- Witness for C2: a concrete 5×5 board with 2 mines generated from
`sampleSeq` satisfies the mine-count conclusion. -/
theorem generateMinefield_correct_witness :
    countMines ((generateMinefield 5 5 2 sampleSeq 9).getD []) = 2 := by
  obtain ⟨b, hb⟩ : ∃ b, generateMinefield 5 5 2 sampleSeq 9 = some b := ⟨_, rfl⟩
  have h := generateMinefield_correct 5 5 2 9 sampleSeq
    (fun i => ⟨Nat.mod_lt _ (by norm_num), Nat.mod_lt _ (by norm_num)⟩) b hb
  rw [hb]
  exact h.1

/-- C6: `generateMinefield` performs no parameter validation at all.  With
non-positive dimensions and `mineCount = width * height` (`0 = 0 * 0`) it
does not fail with any error: it terminates immediately and returns a
board, namely the empty board. -/
theorem generateMinefield_no_parameter_validation :
    generateMinefield 0 0 0 (fun _ => (0, 0)) 1 = some [] := by decide

/-- On a 2×2 grid the safe block covers the whole grid, so with
`mineCount = 4 = width * height` the placement loop can never place a mine
and never terminates (the run yields `none` for every fuel): the code
hangs rather than reporting `InvalidParameters`. -/
lemma generateMinefield_overfull_never_terminates
    (samples : Nat → Nat × Nat) (hs : ∀ i, (samples i).1 < 2 ∧ (samples i).2 < 2) :
    ∀ fuel, generateMinefield 2 2 4 samples fuel = none := by
  have hsafe : ∀ x < 2, ∀ y < 2, inSafeArea 2 2 x y = true := by decide
  have hloop : ∀ fuel i, placeMines 2 2 4 samples fuel i [] = none := by
    intro fuel
    induction fuel with
    | zero => intro i; rfl
    | succ fuel ih =>
      intro i
      unfold placeMines
      rw [hsafe _ (hs i).1 _ (hs i).2]
      simpa using ih (i + 1)
  intro fuel
  unfold generateMinefield
  rw [hloop fuel 0]
  rfl

/-! ## The verification server (`server.js`)

Game sessions live in the MongoDB `games` collection (modelled as a list,
`findOne` as `List.find?`, `updateOne` as an update of the first match;
the collection carries a unique index on `gameId`).  Completion records
live in the `leaderboard` collection, appended by `insertOne`.  `Date`
values are opaque `Nat` timestamps supplied by the caller.  -/

/-- A document of the `games` collection. -/
structure Game where
  gameId : String
  playerAddress : String
  contestId : Nat
  board : List (List Cell)
  secret : String
  commitment : String
  completed : Bool
  moves : Nat
  timeTaken : Nat
deriving DecidableEq, Repr

/-- A document of the `leaderboard` collection (a Completion Record). -/
structure LeaderboardEntry where
  gameId : String
  playerAddress : String
  contestId : Nat
  moves : Nat
  timeTaken : Nat
  completedAt : Nat
  boardSize : String
  mineCount : Nat
deriving DecidableEq, Repr

/-- The server's persistent state: the two MongoDB collections. -/
structure ServerState where
  games : List Game
  leaderboard : List LeaderboardEntry
deriving DecidableEq, Repr

/-- The address check of `POST /api/new-game`:
`playerAddress.match(/^0x[a-fA-F0-9]{40}$/)`, phrased over the string's
character list: 42 characters, the leading two are `0x`, the remaining 40
are hexadecimal digits. -/
def isHexChar (c : Char) : Bool :=
  ('0' ≤ c && c ≤ '9') || ('a' ≤ c && c ≤ 'f') || ('A' ≤ c && c ≤ 'F')

def isValidAddress (s : String) : Bool :=
  s.data.length == 42 && s.data.take 2 == ['0', 'x'] && (s.data.drop 2).all isHexChar

/-- `db.collection("games").findOne({ gameId, playerAddress })`. -/
def findGame (games : List Game) (gameId playerAddress : String) : Option Game :=
  games.find? fun g => g.gameId == gameId && g.playerAddress == playerAddress

/-- `db.collection("games").updateOne({ gameId }, { $set: ... })`: update
the first document matching the filter (the unique index on `gameId`
guarantees there is at most one). -/
def updateFirstGame (games : List Game) (gameId : String) (f : Game → Game) : List Game :=
  match games with
  | [] => []
  | g :: rest =>
    if g.gameId == gameId then f g :: rest
    else g :: updateFirstGame rest gameId f

/-- `validateBoardSolution(originalBoard, revealedBoard)` from the
verification server.  The body consists of a comment describing what a
real implementation would check (all non-mine cells revealed, no mine
cell revealed, dimensions match) followed by `return true;`: it accepts
every submitted solution state unconditionally. -/
def validateBoardSolution (originalBoard : List (List Cell))
    (revealedBoard : List (List Bool)) : Bool :=
  true

/-- The outcomes of `POST /api/verify`. -/
inductive VerifyResult where
  | missingParams
  | notFound
  | alreadyCompleted
  | invalidSolution
  | accepted (secret proof : String)
deriving DecidableEq, Repr

/-- `POST /api/verify`.  `sha256` is the server's
`crypto.createHash("sha256")` digest (hex string), opaque here; `now` is
the `new Date()` timestamp.  JavaScript's falsy test on the request fields
rejects empty strings and zero numbers (an array/object is never falsy,
so `boardState` only has to be present). -/
def verify (sha256 : String → String) (st : ServerState) (now : Nat)
    (gameId : String) (moves timeTaken : Nat) (playerAddress : String)
    (boardState : List (List Bool)) : VerifyResult × ServerState :=
  if gameId == "" || moves == 0 || timeTaken == 0 || playerAddress == "" then
    (VerifyResult.missingParams, st)
  else
    match findGame st.games gameId playerAddress with
    | none => (VerifyResult.notFound, st)
    | some game =>
      if game.completed then (VerifyResult.alreadyCompleted, st)
      else if !validateBoardSolution game.board boardState then
        (VerifyResult.invalidSolution, st)
      else
        let dataToHash := gameId ++ ":" ++ toString moves ++ ":" ++ toString timeTaken
          ++ ":" ++ playerAddress ++ ":" ++ game.secret
        let proof := "0x" ++ sha256 dataToHash
        let games' := updateFirstGame st.games gameId fun g =>
          { g with completed := true, moves := moves, timeTaken := timeTaken }
        let entry : LeaderboardEntry :=
          { gameId := gameId
            playerAddress := playerAddress
            contestId := game.contestId
            moves := moves
            timeTaken := timeTaken
            completedAt := now
            boardSize := toString game.board.length ++ "x"
              ++ toString (game.board.getD 0 []).length
            mineCount := countMines game.board }
        (VerifyResult.accepted ("0x" ++ game.secret) proof,
          { games := games', leaderboard := st.leaderboard ++ [entry] })

/-- The responses of `POST /api/new-game`. -/
inductive NewGameResult where
  | invalidAddress
  | ok (gameId commitment : String)
deriving DecidableEq, Repr

/-- `POST /api/new-game`.  `sha256` and the board serialisation
`JSON.stringify` are opaque; `freshGameId` and `freshSecret` stand for the
`crypto.randomBytes` draws, `samples`/`fuel` drive the generator.  The
mine-count formula `Math.floor(width * height * (0.12 + difficulty * 0.01))`
is modelled by exact rational floor division.  The outer `none` means the
generator loop did not terminate within `fuel`. -/
def newGame (sha256 : String → String) (serialize : List (List Cell) → String)
    (st : ServerState) (playerAddress : String) (contestId : Nat)
    (freshGameId freshSecret : String) (samples : Nat → Nat × Nat) (fuel : Nat) :
    Option (NewGameResult × ServerState) :=
  if !isValidAddress playerAddress then some (NewGameResult.invalidAddress, st)
  else
    match st.games.find? (fun g =>
        g.playerAddress == playerAddress && g.contestId == contestId
          && g.completed == false) with
    | some existingGame =>
      some (NewGameResult.ok existingGame.gameId existingGame.commitment, st)
    | none =>
      let difficulty := min (3 + contestId / 10) 10
      let width := 8 + difficulty
      let height := 8 + difficulty
      let mineCount := width * height * (12 + difficulty) / 100
      match generateMinefield width height mineCount samples fuel with
      | none => none
      | some board =>
        let commitment := "0x" ++ sha256 (serialize board ++ freshSecret ++ playerAddress)
        some (NewGameResult.ok freshGameId commitment,
          { st with games := st.games ++ [{
              gameId := freshGameId
              playerAddress := playerAddress
              contestId := contestId
              board := board
              secret := freshSecret
              commitment := commitment
              completed := false
              moves := 0
              timeTaken := 0 }] })

section ServerLemmas

lemma findGame_eq_none {games : List Game} {gid addr : String}
    (h : ∀ g ∈ games, g.gameId ≠ gid) : findGame games gid addr = none := by
  unfold findGame
  rw [List.find?_eq_none]
  intro g hg
  simp [h g hg]

/-- Updating the session found by `{gameId}` commutes with looking it up
again by `{gameId, playerAddress}`, provided game ids are unique (the
collection's unique index) and the update touches neither key field. -/
lemma findGame_updateFirst {games : List Game} {gid addr : String} (f : Game → Game)
    (hnd : (games.map Game.gameId).Nodup)
    (hf : ∀ g, (f g).gameId = g.gameId ∧ (f g).playerAddress = g.playerAddress) :
    findGame (updateFirstGame games gid f) gid addr = (findGame games gid addr).map f := by
  induction games with
  | nil => rfl
  | cons g rest ih =>
    rw [List.map_cons, List.nodup_cons] at hnd
    obtain ⟨hhead, htail⟩ := hnd
    unfold updateFirstGame
    by_cases hg : g.gameId = gid
    · simp only [hg, beq_self_eq_true, if_true]
      unfold findGame
      by_cases haddr : g.playerAddress = addr
      · rw [List.find?_cons_of_pos _ (by simp [(hf g).1, (hf g).2, hg, haddr]),
          List.find?_cons_of_pos _ (by simp [hg, haddr])]
        rfl
      · rw [List.find?_cons_of_neg _ (by simp [(hf g).2, haddr]),
          List.find?_cons_of_neg _ (by simp [haddr])]
        have hnone : List.find? (fun g' =>
            g'.gameId == gid && g'.playerAddress == addr) rest = none := by
          rw [List.find?_eq_none]
          intro g' hg'
          have hne : g'.gameId ≠ gid := by
            intro hcontra
            exact hhead (hg ▸ hcontra ▸ List.mem_map_of_mem Game.gameId hg')
          simp [hne]
        rw [hnone]
        rfl
    · have hgb : (g.gameId == gid) = false := by simp [hg]
      simp only [hgb, Bool.false_eq_true, if_false]
      unfold findGame
      rw [List.find?_cons_of_neg _ (by simp [hg]), List.find?_cons_of_neg _ (by simp [hg])]
      exact ih htail

end ServerLemmas

/-- The 2×2 board with a single mine at `(0, 0)` used as C1's failing
session. -/
def demoBoard : List (List Cell) := [[Cell.mine, Cell.num 1], [Cell.num 1, Cell.num 1]]

/-- C1's stored session: not yet completed. -/
def demoGame : Game :=
  { gameId := "g1", playerAddress := "0xAB", contestId := 1, board := demoBoard,
    secret := "sec", commitment := "cmt", completed := false, moves := 0, timeTaken := 0 }

def demoState : ServerState := { games := [demoGame], leaderboard := [] }

/-- A solution state that reveals exactly the mine and none of the three
safe cells: it violates both win conditions at once. -/
def badSolution : List (List Bool) := [[true, false], [false, false]]

/-- C1: the completion verifier accepts every submitted solution state.
`validateBoardSolution` returns `true` unconditionally, so a verify
request whose solution state reveals a mine and misses every non-mine
cell is still answered `accepted` (with the secret and proof released and
a Completion Record appended) instead of being rejected with
`InvalidSolution` and no state change. -/
theorem verify_accepts_invalid_solutions :
    (∀ (originalBoard : List (List Cell)) (revealedBoard : List (List Bool)),
      validateBoardSolution originalBoard revealedBoard = true) ∧
    (verify (fun s => s) demoState 0 "g1" 1 1 "0xAB" badSolution).1
      = VerifyResult.accepted "0xsec" "0xg1:1:1:0xAB:sec" ∧
    (verify (fun s => s) demoState 0 "g1" 1 1 "0xAB" badSolution).2.leaderboard.length = 1 := by
  refine ⟨fun _ _ => rfl, ?_, ?_⟩ <;> rfl

/-- C3: verification is idempotent per session.  For a well-formed request
(non-empty ids, positive counters): a verify call on a session already
marked completed answers `alreadyCompleted` and leaves the state untouched;
any non-accepted answer leaves the state untouched; and an accepted call
appends exactly one Completion Record, after which a second verify call on
the same session answers `alreadyCompleted` and changes nothing — so at
most one call is ever accepted and at most one record written per
session. -/
theorem verify_idempotent (sha256 : String → String) (st : ServerState)
    (now now2 : Nat) (gid addr : String) (moves t moves2 t2 : Nat)
    (bs bs2 : List (List Bool))
    (hnd : (st.games.map Game.gameId).Nodup)
    (hgid : gid ≠ "") (haddr : addr ≠ "") (hm : moves ≠ 0) (ht : t ≠ 0)
    (hm2 : moves2 ≠ 0) (ht2 : t2 ≠ 0) :
    (∀ g, findGame st.games gid addr = some g → g.completed = true →
      verify sha256 st now gid moves t addr bs = (VerifyResult.alreadyCompleted, st)) ∧
    (∀ r st', verify sha256 st now gid moves t addr bs = (r, st') →
      (∀ s p, r ≠ VerifyResult.accepted s p) → st' = st) ∧
    (∀ s p st', verify sha256 st now gid moves t addr bs = (VerifyResult.accepted s p, st') →
      st'.leaderboard.length = st.leaderboard.length + 1 ∧
        verify sha256 st' now2 gid moves2 t2 addr bs2
          = (VerifyResult.alreadyCompleted, st')) := by
  have hc : (gid == "" || moves == 0 || t == 0 || addr == "") = false := by
    simp [hgid, hm, ht, haddr]
  have hc2 : (gid == "" || moves2 == 0 || t2 == 0 || addr == "") = false := by
    simp [hgid, hm2, ht2, haddr]
  refine ⟨?_, ?_, ?_⟩
  · intro g hfind hcomp
    unfold verify
    simp [hc, hfind, hcomp]
  · intro r st' heq hne
    unfold verify at heq
    rw [if_neg (by simp [hc])] at heq
    cases hfind : findGame st.games gid addr with
    | none => simp only [hfind] at heq; cases heq; rfl
    | some game =>
      simp only [hfind] at heq
      by_cases hcomp : game.completed
      · rw [if_pos hcomp] at heq; cases heq; rfl
      · rw [if_neg hcomp, if_neg (by simp [validateBoardSolution])] at heq
        simp only [Prod.mk.injEq] at heq
        exact absurd heq.1.symm (hne _ _)
  · intro s p st' heq
    unfold verify at heq
    rw [if_neg (by simp [hc])] at heq
    cases hfind : findGame st.games gid addr with
    | none => simp only [hfind] at heq; cases heq
    | some game =>
      simp only [hfind] at heq
      by_cases hcomp : game.completed
      · rw [if_pos hcomp] at heq; cases heq
      · rw [if_neg hcomp, if_neg (by simp [validateBoardSolution])] at heq
        simp only [Prod.mk.injEq, VerifyResult.accepted.injEq] at heq
        obtain ⟨⟨hs, hp⟩, hstate⟩ := heq
        subst hstate
        constructor
        · simp
        · unfold verify
          rw [if_neg (by simp [hc2])]
          have hfind2 : findGame
              (updateFirstGame st.games gid fun g =>
                { g with completed := true, moves := moves, timeTaken := t }) gid addr
              = some { game with completed := true, moves := moves, timeTaken := t } := by
            rw [findGame_updateFirst
              (fun g => { g with completed := true, moves := moves, timeTaken := t })
              hnd (fun g => ⟨rfl, rfl⟩), hfind]
            rfl
          simp [hfind2]

/-- Witness for C3: on the concrete demo session, the verify call after an
accepted one answers `alreadyCompleted` and leaves the state unchanged. -/
theorem verify_idempotent_witness :
    verify (fun s => s) ((verify (fun s => s) demoState 0 "g1" 1 1 "0xAB" badSolution).2) 1
        "g1" 2 2 "0xAB" badSolution
      = (VerifyResult.alreadyCompleted,
        (verify (fun s => s) demoState 0 "g1" 1 1 "0xAB" badSolution).2) := by
  have h := verify_idempotent (fun s => s) demoState 0 1 "g1" "0xAB" 1 1 2 2
    badSolution badSolution (by decide) (by decide) (by decide) (by decide) (by decide)
    (by decide) (by decide)
  obtain ⟨s, p, st', heq⟩ : ∃ s p st',
      verify (fun s => s) demoState 0 "g1" 1 1 "0xAB" badSolution
        = (VerifyResult.accepted s p, st') := ⟨_, _, _, rfl⟩
  rw [heq]
  exact (h.2.2 s p st' heq).2

/-- C7: `POST /api/new-game` is idempotent while a session is open.  If the
player already has an incomplete session in the contest, the stored
`{gameId, commitment}` pair is returned unchanged, no state is written,
and none of the fresh randomness (game id, secret, board samples) is
consumed. -/
theorem newGame_idempotent (sha256 : String → String) (serialize : List (List Cell) → String)
    (st : ServerState) (playerAddress : String) (contestId : Nat)
    (freshGameId freshSecret : String) (samples : Nat → Nat × Nat) (fuel : Nat) (g : Game)
    (hvalid : isValidAddress playerAddress = true)
    (hfound : st.games.find? (fun g' => g'.playerAddress == playerAddress
        && g'.contestId == contestId && g'.completed == false) = some g) :
    newGame sha256 serialize st playerAddress contestId freshGameId freshSecret samples fuel
      = some (NewGameResult.ok g.gameId g.commitment, st) := by
  unfold newGame
  rw [hvalid]
  simp only [Bool.not_true, Bool.false_eq_true, if_false, hfound]

/-- A syntactically valid 0x-prefixed 40-hex-digit player address. -/
def demoAddress : String := "0x00000000000000000000000000000000000000ab"

/-- An open (incomplete) session for `demoAddress` in contest 2. -/
def activeGame : Game :=
  { gameId := "g7", playerAddress := demoAddress, contestId := 2, board := demoBoard,
    secret := "s7", commitment := "c7", completed := false, moves := 0, timeTaken := 0 }

def activeState : ServerState := { games := [activeGame], leaderboard := [] }

/-- Witness for C7: the repeated new-game request on the concrete open
session returns the stored pair and the unchanged state. -/
theorem newGame_idempotent_witness :
    newGame (fun s => s) (fun _ => "ser") activeState demoAddress 2 "freshId" "freshSecret"
        sampleSeq 9
      = some (NewGameResult.ok "g7" "c7", activeState) :=
  newGame_idempotent (fun s => s) (fun _ => "ser") activeState demoAddress 2
    "freshId" "freshSecret" sampleSeq 9 activeGame (by decide) (by rfl)

/-! ## The contest ledger (`MinesweeperChallenge.sol`)

Addresses are `Nat` (`0` is `address(0)`), `bytes32` values are their
`Nat` value, `block.timestamp` and `msg.value` are parameters of each
call.  A `require` failure — and a failed outbound transfer, whose
success is decided by the oracle `callOk` — reverts the whole call, which
`Except.error` models.  Outbound value transfers are returned as a
payment list. -/

abbrev Address := Nat

/-- `type(uint256).max`, the initial sentinel score of the winner
selection in `distributePrizes`. -/
def MAXUINT : Nat := 2 ^ 256 - 1

/-- The `Contest` struct; Solidity mappings are total functions defaulting
to zero/false. -/
structure Contest where
  startTime : Nat
  endTime : Nat
  entryFee : Nat
  totalPrizePool : Nat
  players : List Address
  hasEntered : Address → Bool
  bestMoves : Address → Nat
  bestTime : Address → Nat
  commitments : Address → Nat
  prizesDistributed : Bool

/-- An untouched mapping slot. -/
def emptyContest : Contest :=
  { startTime := 0, endTime := 0, entryFee := 0, totalPrizePool := 0, players := [],
    hasEntered := fun _ => false, bestMoves := fun _ => 0, bestTime := fun _ => 0,
    commitments := fun _ => 0, prizesDistributed := false }

/-- The contract's storage. -/
structure LedgerState where
  weeklyContests : Nat → Contest
  currentContestId : Nat
  platformFeePercentage : Nat
  platformFeeReceiver : Address
  owner : Address

/-- Storage right after the constructor ran with `deployer` as
`msg.sender`. -/
def LedgerState.init (deployer : Address) : LedgerState :=
  { weeklyContests := fun _ => emptyContest, currentContestId := 0,
    platformFeePercentage := 500, platformFeeReceiver := deployer, owner := deployer }

/-- Write one slot of the `weeklyContests` mapping. -/
def setContest (st : LedgerState) (id : Nat) (c : Contest) : LedgerState :=
  { st with weeklyContests := fun i => if i = id then c else st.weeklyContests i }

/-- `createWeeklyContest(_startTime, _endTime, _entryFee)` (owner only). -/
def createWeeklyContest (st : LedgerState) (sender : Address)
    (timestamp startT endT fee : Nat) : Except String LedgerState :=
  if sender ≠ st.owner then Except.error "Ownable: caller is not the owner"
  else if ¬ startT < endT then Except.error "Invalid time range"
  else if ¬ timestamp ≤ startT then Except.error "Start time must be in the future"
  else
    let newId := st.currentContestId + 1
    let c := st.weeklyContests newId
    Except.ok (setContest { st with currentContestId := newId } newId
      { c with startTime := startT, endTime := endT, entryFee := fee })

/-- `enterContest(_contestId, _commitment)` (payable). -/
def enterContest (st : LedgerState) (sender : Address) (value timestamp : Nat)
    (contestId : Nat) (commitment : Nat) : Except String LedgerState :=
  let contest := st.weeklyContests contestId
  if ¬ contest.startTime ≤ timestamp then Except.error "Contest not started"
  else if ¬ timestamp < contest.endTime then Except.error "Contest ended"
  else if value ≠ contest.entryFee then Except.error "Incorrect entry fee"
  else if contest.hasEntered sender then Except.error "Already entered"
  else
    Except.ok (setContest st contestId
      { contest with
          players := contest.players ++ [sender]
          hasEntered := fun a => if a = sender then true else contest.hasEntered a
          commitments := fun a => if a = sender then commitment else contest.commitments a
          totalPrizePool := contest.totalPrizePool + value })

/-- `uint256(uint8(_proof[0]))`: the value of the first (most significant)
byte of a `bytes32`.  The Vyper variant computes the same value via
`convert(slice(_proof, 0, 1), uint256)`. -/
def firstByte (b : Nat) : Nat := b / 2 ^ 248 % 2 ^ 8

/-- `submitGameCompletion(_contestId, _moves, _secret, _proof)`. -/
def submitGameCompletion (st : LedgerState) (sender : Address) (timestamp : Nat)
    (contestId moves secret proof : Nat) : Except String LedgerState :=
  let contest := st.weeklyContests contestId
  if ¬ contest.hasEntered sender then Except.error "Not entered in contest"
  else if ¬ timestamp < contest.endTime then Except.error "Contest ended"
  else if ¬ 0 < moves then Except.error "Invalid move count"
  else if contest.commitments sender = 0 then Except.error "No commitment found"
  else if contest.bestMoves sender = 0 ∨ moves < contest.bestMoves sender then
    Except.ok (setContest st contestId
      { contest with
          bestMoves := fun a => if a = sender then moves else contest.bestMoves a
          bestTime := fun a => if a = sender then firstByte proof else contest.bestTime a })
  else Except.ok st

/-- `moves * 1000 + time`, the composite score of `distributePrizes`. -/
def compositeScore (moves time : Nat) : Nat := moves * 1000 + time

/-- One pass of the winner-insertion loop of `distributePrizes` over the
three `(score, winner)` slots: find the first slot beaten strictly, shift
the later slots down by one, insert. -/
def top3Insert (score : Nat) (player : Address) :
    List (Nat × Address) → List (Nat × Address)
  | [a, b, c] =>
    if score < a.1 then [(score, player), a, b]
    else if score < b.1 then [a, (score, player), b]
    else if score < c.1 then [a, b, (score, player)]
    else [a, b, c]
  | l => l

/-- The three slots as initialised in `distributePrizes`: scores at
`type(uint256).max`, winners at `address(0)`. -/
def initialSlots : List (Nat × Address) := [(MAXUINT, 0), (MAXUINT, 0), (MAXUINT, 0)]

/-- The top-3 scan of `distributePrizes` over `(player, bestMoves,
bestTime)` rows: players without a submission (`moves == 0`) are skipped,
everyone else is inserted by composite score. -/
def findTopThree (entries : List (Address × Nat × Nat)) : List (Nat × Address) :=
  entries.foldl (fun slots e =>
    if e.2.1 = 0 then slots
    else top3Insert (compositeScore e.2.1 e.2.2) e.1 slots) initialSlots

/-- The prize-sending loop of `distributePrizes` over the zipped
`(slot, share)` rows: pays each slot whose winner is non-zero and whose
share is positive, reverting when a transfer fails; returns the payments
made and `totalSent`. -/
def sendPrizes (callOk : Address → Nat → Bool) :
    List ((Nat × Address) × Nat) → Except String (List (Address × Nat) × Nat)
  | [] => Except.ok ([], 0)
  | (slot, share) :: rest =>
    if slot.2 ≠ 0 ∧ 0 < share then
      if callOk slot.2 share then
        match sendPrizes callOk rest with
        | Except.error e => Except.error e
        | Except.ok (ps, total) => Except.ok ((slot.2, share) :: ps, share + total)
      else Except.error "Prize transfer failed"
    else sendPrizes callOk rest

/-- `distributePrizes(_contestId)` (owner only, after the contest end,
one-shot). -/
def distributePrizes (st : LedgerState) (sender : Address) (timestamp : Nat)
    (contestId : Nat) (callOk : Address → Nat → Bool) :
    Except String (LedgerState × List (Address × Nat)) :=
  let contest := st.weeklyContests contestId
  if sender ≠ st.owner then Except.error "Ownable: caller is not the owner"
  else if ¬ contest.endTime ≤ timestamp then Except.error "Contest not ended"
  else if contest.prizesDistributed then Except.error "Prizes already distributed"
  else if contest.players.length = 0 then Except.error "No players"
  else
    let platformFee := contest.totalPrizePool * st.platformFeePercentage / 10000
    let prizesToDistribute := contest.totalPrizePool - platformFee
    if 0 < platformFee ∧ callOk st.platformFeeReceiver platformFee = false then
      Except.error "Platform fee transfer failed"
    else
      let feePayments : List (Address × Nat) :=
        if 0 < platformFee then [(st.platformFeeReceiver, platformFee)] else []
      let slots := findTopThree (contest.players.map fun p =>
        (p, contest.bestMoves p, contest.bestTime p))
      let prizeShares := [prizesToDistribute * 50 / 100, prizesToDistribute * 30 / 100,
        prizesToDistribute * 20 / 100]
      match sendPrizes callOk (slots.zip prizeShares) with
      | Except.error e => Except.error e
      | Except.ok (payments, totalSent) =>
        if totalSent < prizesToDistribute ∧
            callOk st.owner (prizesToDistribute - totalSent) = false then
          Except.error "Remaining prize transfer failed"
        else
          let remainderPayments : List (Address × Nat) :=
            if totalSent < prizesToDistribute then
              [(st.owner, prizesToDistribute - totalSent)]
            else []
          Except.ok (setContest st contestId { contest with prizesDistributed := true },
            feePayments ++ payments ++ remainderPayments)

/-- `updatePlatformFee(_newFeePercentage)` (owner only, capped at 10%). -/
def updatePlatformFee (st : LedgerState) (sender : Address) (newFee : Nat) :
    Except String LedgerState :=
  if sender ≠ st.owner then Except.error "Ownable: caller is not the owner"
  else if ¬ newFee ≤ 1000 then Except.error "Fee too high"
  else Except.ok { st with platformFeePercentage := newFee }

/-- `updateFeeReceiver(_newReceiver)` (owner only, non-zero). -/
def updateFeeReceiver (st : LedgerState) (sender : Address) (newReceiver : Address) :
    Except String LedgerState :=
  if sender ≠ st.owner then Except.error "Ownable: caller is not the owner"
  else if newReceiver = 0 then Except.error "Invalid address"
  else Except.ok { st with platformFeeReceiver := newReceiver }

/-- One successful external call on the ledger. -/
inductive LedgerStep : LedgerState → LedgerState → Prop where
  | create {st st' : LedgerState} {sender timestamp startT endT fee : Nat} :
      createWeeklyContest st sender timestamp startT endT fee = Except.ok st' →
      LedgerStep st st'
  | enter {st st' : LedgerState} {sender value timestamp contestId commitment : Nat} :
      enterContest st sender value timestamp contestId commitment = Except.ok st' →
      LedgerStep st st'
  | submit {st st' : LedgerState} {sender timestamp contestId moves secret proof : Nat} :
      submitGameCompletion st sender timestamp contestId moves secret proof = Except.ok st' →
      LedgerStep st st'
  | distribute {st st' : LedgerState} {sender timestamp contestId : Nat}
      {callOk : Address → Nat → Bool} {payments : List (Address × Nat)} :
      distributePrizes st sender timestamp contestId callOk = Except.ok (st', payments) →
      LedgerStep st st'
  | setFee {st st' : LedgerState} {sender newFee : Nat} :
      updatePlatformFee st sender newFee = Except.ok st' → LedgerStep st st'
  | setReceiver {st st' : LedgerState} {sender newReceiver : Nat} :
      updateFeeReceiver st sender newReceiver = Except.ok st' → LedgerStep st st'

/-- Whether a ledger call succeeded. -/
def isOk {α : Type} : Except String α → Bool
  | Except.ok _ => true
  | Except.error _ => false

/-- Players appear in a contest's player list only once marked entered:
the link between `hasEntered` and `players` maintained by the code. -/
def PlayersInv (st : LedgerState) : Prop :=
  ∀ id a, (st.weeklyContests id).hasEntered a = false →
    a ∉ (st.weeklyContests id).players

lemma playersInv_setContest {st : LedgerState} {cid : Nat} {c' : Contest}
    (hinv : PlayersInv st)
    (hc : ∀ a, c'.hasEntered a = false → a ∉ c'.players) :
    PlayersInv (setContest st cid c') := by
  intro id a hent
  simp only [setContest] at hent ⊢
  by_cases hid : id = cid
  · rw [if_pos hid] at hent ⊢
    exact hc a hent
  · rw [if_neg hid] at hent ⊢
    exact hinv id a hent

lemma ledgerStep_playersInv {s1 s2 : LedgerState} (h : LedgerStep s1 s2)
    (hinv : PlayersInv s1) : PlayersInv s2 := by
  cases h with
  | create hok =>
    simp only [createWeeklyContest] at hok
    split at hok
    · cases hok
    · split at hok
      · cases hok
      · split at hok
        · cases hok
        · cases hok
          exact playersInv_setContest (fun id a h => hinv id a h)
            (fun a h => hinv _ a h)
  | enter hok =>
    rename_i sender value timestamp contestId commitment
    simp only [enterContest] at hok
    split at hok
    · cases hok
    · split at hok
      · cases hok
      · split at hok
        · cases hok
        · split at hok
          · cases hok
          · rename_i hnent
            cases hok
            refine playersInv_setContest hinv ?_
            intro a ha
            by_cases has : a = sender
            · rw [has] at ha
              simp at ha
            · simp only [if_neg has] at ha
              have hnot := hinv contestId a ha
              simp [List.mem_append, hnot, has]
  | submit hok =>
    simp only [submitGameCompletion] at hok
    split at hok
    · cases hok
    · split at hok
      · cases hok
      · split at hok
        · cases hok
        · split at hok
          · cases hok
          · split at hok
            · cases hok
              exact playersInv_setContest hinv (fun a h => hinv _ a h)
            · cases hok
              exact hinv
  | distribute hok =>
    simp only [distributePrizes] at hok
    split at hok
    · cases hok
    · split at hok
      · cases hok
      · split at hok
        · cases hok
        · split at hok
          · cases hok
          · split at hok
            · cases hok
            · split at hok
              · cases hok
              · split at hok
                · cases hok
                · cases hok
                  exact playersInv_setContest hinv (fun a h => hinv _ a h)
  | setFee hok =>
    simp only [updatePlatformFee] at hok
    split at hok
    · cases hok
    · split at hok
      · cases hok
      · cases hok
        exact hinv
  | setReceiver hok =>
    simp only [updateFeeReceiver] at hok
    split at hok
    · cases hok
    · split at hok
      · cases hok
      · cases hok
        exact hinv

/-- A closed contest with a pool of 1000 wei, three entered players with
submitted best scores, 5% platform fee at the state level: the scenario of
the prize-split property. -/
def prizeContest : Contest :=
  { startTime := 0, endTime := 10, entryFee := 0, totalPrizePool := 1000,
    players := [11, 12, 13],
    hasEntered := fun a => a = 11 || a = 12 || a = 13,
    bestMoves := fun a => if a = 11 then 10 else if a = 12 then 12 else
      if a = 13 then 15 else 0,
    bestTime := fun a => if a = 11 then 5 else if a = 12 then 6 else
      if a = 13 then 7 else 0,
    commitments := fun a => if a = 11 || a = 12 || a = 13 then 1 else 0,
    prizesDistributed := false }

def prizeState : LedgerState :=
  { weeklyContests := fun i => if i = 1 then prizeContest else emptyContest,
    currentContestId := 1, platformFeePercentage := 500, platformFeeReceiver := 900,
    owner := 999 }

/-- C5: on a pool of 1000 units with `platformFeePercentage = 500` basis
points, `distributePrizes` pays a platform fee of 50, distributes 950,
and the 50/30/20 winner shares are 475, 285 and 190 with remainder 0 — all
by `Nat` floor division, exactly the integer arithmetic of the contract. -/
theorem distributePrizes_arithmetic :
    (match distributePrizes prizeState 999 10 1 (fun _ _ => true) with
      | Except.ok (_, payments) => payments
      | Except.error _ => []) = [(900, 50), (11, 475), (12, 285), (13, 190)] ∧
    1000 * 500 / 10000 = 50 ∧ 1000 - 50 = 950 ∧
    950 * 50 / 100 = 475 ∧ 950 * 30 / 100 = 285 ∧ 950 * 20 / 100 = 190 ∧
    50 + 475 + 285 + 190 = 1000 := by
  exact ⟨rfl, rfl, rfl, rfl, rfl, rfl, rfl⟩

/-- C9: whenever `submitGameCompletion` first sets or improves the
caller's best move count, the best time recorded on-chain equals the
unsigned value of the first byte of the submitted proof — a value between
0 and 255.  No measured elapsed time enters the computation: the call
takes no time argument at all. -/
theorem submitGameCompletion_time_is_proof_byte
    (st : LedgerState) (sender : Address) (timestamp contestId moves secret proof : Nat)
    (st' : LedgerState)
    (hok : submitGameCompletion st sender timestamp contestId moves secret proof
      = Except.ok st')
    (himpr : (st.weeklyContests contestId).bestMoves sender = 0 ∨
      moves < (st.weeklyContests contestId).bestMoves sender) :
    (st'.weeklyContests contestId).bestTime sender = firstByte proof ∧
      firstByte proof ≤ 255 := by
  have hbound : firstByte proof ≤ 255 := by
    have := Nat.mod_lt (proof / 2 ^ 248) (show 0 < 2 ^ 8 by norm_num)
    unfold firstByte
    omega
  refine ⟨?_, hbound⟩
  simp only [submitGameCompletion] at hok
  split at hok
  · cases hok
  · split at hok
    · cases hok
    · split at hok
      · cases hok
      · split at hok
        · cases hok
        · cases hok
          simp [setContest]

/-- Witness for C9: a concrete submission whose proof has first byte 171
records best time 171. -/
theorem submitGameCompletion_time_witness :
    (match submitGameCompletion prizeState 11 5 1 5 0 (171 * 2 ^ 248 + 99) with
      | Except.ok st' => (st'.weeklyContests 1).bestTime 11
      | Except.error _ => 0) = 171 := by
  obtain ⟨st', hok⟩ : ∃ st',
      submitGameCompletion prizeState 11 5 1 5 0 (171 * 2 ^ 248 + 99)
        = Except.ok st' := ⟨_, by rfl⟩
  rw [hok]
  have h := submitGameCompletion_time_is_proof_byte prizeState 11 5 1 5 0
    (171 * 2 ^ 248 + 99) st' hok (Or.inr (by norm_num [prizeState, prizeContest]))
  show (st'.weeklyContests 1).bestTime 11 = 171
  rw [h.1]
  norm_num [firstByte]

/-- C10: a successful `enterContest` adds `msg.value` to exactly that
contest's pool, marks the caller entered with the given commitment,
appends the caller to the player list exactly once (under the maintained
player-list invariant the caller then occurs exactly once), and changes
nothing else: not the contest's timing, fee, scores, flag or other
players' entries, not other contests, and no global field. -/
theorem enterContest_frame (st : LedgerState) (sender : Address)
    (value timestamp contestId commitment : Nat) (st' : LedgerState)
    (hok : enterContest st sender value timestamp contestId commitment = Except.ok st') :
    ((st'.weeklyContests contestId).totalPrizePool
        = (st.weeklyContests contestId).totalPrizePool + value) ∧
    (st'.weeklyContests contestId).hasEntered sender = true ∧
    (st'.weeklyContests contestId).commitments sender = commitment ∧
    (st'.weeklyContests contestId).players
      = (st.weeklyContests contestId).players ++ [sender] ∧
    (st.weeklyContests contestId).hasEntered sender = false ∧
    (st'.weeklyContests contestId).startTime = (st.weeklyContests contestId).startTime ∧
    (st'.weeklyContests contestId).endTime = (st.weeklyContests contestId).endTime ∧
    (st'.weeklyContests contestId).entryFee = (st.weeklyContests contestId).entryFee ∧
    (st'.weeklyContests contestId).prizesDistributed
      = (st.weeklyContests contestId).prizesDistributed ∧
    (∀ a, a ≠ sender →
      (st'.weeklyContests contestId).hasEntered a
          = (st.weeklyContests contestId).hasEntered a ∧
        (st'.weeklyContests contestId).commitments a
          = (st.weeklyContests contestId).commitments a) ∧
    (∀ a, (st'.weeklyContests contestId).bestMoves a
        = (st.weeklyContests contestId).bestMoves a ∧
      (st'.weeklyContests contestId).bestTime a
        = (st.weeklyContests contestId).bestTime a) ∧
    (∀ id, id ≠ contestId → st'.weeklyContests id = st.weeklyContests id) ∧
    st'.currentContestId = st.currentContestId ∧
    st'.platformFeePercentage = st.platformFeePercentage ∧
    st'.platformFeeReceiver = st.platformFeeReceiver ∧
    st'.owner = st.owner ∧
    (PlayersInv st → (st'.weeklyContests contestId).players.count sender = 1) ∧
    (∀ s1 s2, LedgerStep s1 s2 → PlayersInv s1 → PlayersInv s2) := by
  simp only [enterContest] at hok
  split at hok
  · cases hok
  · split at hok
    · cases hok
    · split at hok
      · cases hok
      · split at hok
        · cases hok
        · rename_i hnent
          rw [Bool.not_eq_true] at hnent
          cases hok
          refine ⟨by simp [setContest], by simp [setContest], by simp [setContest],
            by simp [setContest], hnent, by simp [setContest], by simp [setContest],
            by simp [setContest], by simp [setContest], ?_, ?_, ?_,
            rfl, rfl, rfl, rfl, ?_, fun s1 s2 h hi => ledgerStep_playersInv h hi⟩
          · intro a ha
            constructor <;> simp [setContest, ha]
          · intro a
            constructor <;> simp [setContest]
          · intro id hid
            simp [setContest, hid]
          · intro hinv
            have hnot : sender ∉ (st.weeklyContests contestId).players :=
              hinv contestId sender hnent
            simp [setContest, List.count_append, List.count_eq_zero_of_not_mem hnot]

/-- The ledger after the owner `999` creates contest 1 with window
`[0, 10)` and entry fee 5 on a fresh deployment. -/
def contestLedger : LedgerState :=
  match createWeeklyContest (LedgerState.init 999) 999 0 0 10 5 with
  | Except.ok s => s
  | Except.error _ => LedgerState.init 999

/-- Witness for C10: the concrete entry of player 11 (fee 5, timestamp 3)
into contest 1 credits the pool, records the entry once, and leaves the
fee untouched. -/
theorem enterContest_frame_witness :
    (match enterContest contestLedger 11 5 3 1 77 with
      | Except.ok st' => ((st'.weeklyContests 1).totalPrizePool,
          (st'.weeklyContests 1).players.count 11,
          (st'.weeklyContests 1).hasEntered 11,
          (st'.weeklyContests 1).commitments 11,
          (st'.weeklyContests 1).entryFee)
      | Except.error _ => (0, 0, false, 0, 0)) = (5, 1, true, 77, 5) := by
  obtain ⟨st', hok⟩ : ∃ st', enterContest contestLedger 11 5 3 1 77 = Except.ok st' :=
    ⟨_, by rfl⟩
  rw [hok]
  show ((st'.weeklyContests 1).totalPrizePool,
      (st'.weeklyContests 1).players.count 11,
      (st'.weeklyContests 1).hasEntered 11,
      (st'.weeklyContests 1).commitments 11,
      (st'.weeklyContests 1).entryFee) = (5, 1, true, 77, 5)
  have h := enterContest_frame contestLedger 11 5 3 1 77 st' hok
  have hinv0 : PlayersInv (LedgerState.init 999) := fun id a hfalse => by
    simp [LedgerState.init, emptyContest]
  have hstep : LedgerStep (LedgerState.init 999) contestLedger :=
    LedgerStep.create (show createWeeklyContest (LedgerState.init 999) 999 0 0 10 5
      = Except.ok contestLedger from rfl)
  have hinv : PlayersInv contestLedger := ledgerStep_playersInv hstep hinv0
  have hpool := h.1
  have hent := h.2.1
  have hcmt := h.2.2.1
  have hfee := h.2.2.2.2.2.2.2.1
  have hcount := h.2.2.2.2.2.2.2.2.2.2.2.2.2.2.2.2.1 hinv
  rw [hpool, hent, hcmt, hfee, hcount]
  rfl

/-- C8: `distributePrizes` rejects before the contest's end time and
rejects once the contest is marked distributed; a successful call sets the
`prizesDistributed` flag; and no reachable ledger transition ever unsets
the flag — prizes are distributed at most once per contest. -/
theorem distributePrizes_one_shot :
    (∀ (st : LedgerState) (sender : Address) (timestamp contestId : Nat)
        (callOk : Address → Nat → Bool),
      timestamp < (st.weeklyContests contestId).endTime →
        isOk (distributePrizes st sender timestamp contestId callOk) = false) ∧
    (∀ (st : LedgerState) (sender : Address) (timestamp contestId : Nat)
        (callOk : Address → Nat → Bool),
      (st.weeklyContests contestId).prizesDistributed = true →
        isOk (distributePrizes st sender timestamp contestId callOk) = false) ∧
    (∀ (st : LedgerState) (sender : Address) (timestamp contestId : Nat)
        (callOk : Address → Nat → Bool) (st' : LedgerState)
        (payments : List (Address × Nat)),
      distributePrizes st sender timestamp contestId callOk
          = Except.ok (st', payments) →
        (st'.weeklyContests contestId).prizesDistributed = true) ∧
    (∀ s1 s2, LedgerStep s1 s2 → ∀ id,
      (s1.weeklyContests id).prizesDistributed = true →
        (s2.weeklyContests id).prizesDistributed = true) := by
  refine ⟨?_, ?_, ?_, ?_⟩
  · intro st sender timestamp contestId callOk h
    simp only [distributePrizes]
    split
    · rfl
    · rw [if_pos (by omega)]
      rfl
  · intro st sender timestamp contestId callOk h
    simp only [distributePrizes]
    split
    · rfl
    · split
      · rfl
      · rfl
  · intro st sender timestamp contestId callOk st' payments hok
    simp only [distributePrizes] at hok
    split at hok
    · cases hok
    · split at hok
      · cases hok
      · split at hok
        · cases hok
        · split at hok
          · cases hok
          · split at hok
            · cases hok
            · split at hok
              · cases hok
              · split at hok
                · cases hok
                · cases hok
                  simp [setContest]
  · intro s1 s2 hstep id hflag
    cases hstep with
    | create hok =>
      simp only [createWeeklyContest] at hok
      split at hok
      · cases hok
      · split at hok
        · cases hok
        · split at hok
          · cases hok
          · cases hok
            simp only [setContest]
            by_cases hid : id = s1.currentContestId + 1
            · rw [if_pos hid]
              rw [hid] at hflag
              exact hflag
            · rw [if_neg hid]
              exact hflag
    | enter hok =>
      rename_i sender value timestamp contestId commitment
      simp only [enterContest] at hok
      split at hok
      · cases hok
      · split at hok
        · cases hok
        · split at hok
          · cases hok
          · split at hok
            · cases hok
            · cases hok
              simp only [setContest]
              by_cases hid : id = contestId
              · rw [if_pos hid]
                rw [hid] at hflag
                exact hflag
              · rw [if_neg hid]
                exact hflag
    | submit hok =>
      rename_i sender timestamp contestId moves secret proof
      simp only [submitGameCompletion] at hok
      split at hok
      · cases hok
      · split at hok
        · cases hok
        · split at hok
          · cases hok
          · split at hok
            · cases hok
            · split at hok
              · cases hok
                simp only [setContest]
                by_cases hid : id = contestId
                · rw [if_pos hid]
                  rw [hid] at hflag
                  exact hflag
                · rw [if_neg hid]
                  exact hflag
              · cases hok
                exact hflag
    | distribute hok =>
      rename_i sender timestamp contestId callOk payments
      simp only [distributePrizes] at hok
      split at hok
      · cases hok
      · split at hok
        · cases hok
        · split at hok
          · cases hok
          · split at hok
            · cases hok
            · split at hok
              · cases hok
              · split at hok
                · cases hok
                · split at hok
                  · cases hok
                  · cases hok
                    simp only [setContest]
                    by_cases hid : id = contestId <;> simp [hid, hflag]
    | setFee hok =>
      simp only [updatePlatformFee] at hok
      split at hok
      · cases hok
      · split at hok
        · cases hok
        · cases hok
          exact hflag
    | setReceiver hok =>
      simp only [updateFeeReceiver] at hok
      split at hok
      · cases hok
      · split at hok
        · cases hok
        · cases hok
          exact hflag

/-- Witness for C8: on the concrete pool-1000 contest, a call at
timestamp 5 (before the end time 10) fails, a call at 10 succeeds and
marks the contest distributed. -/
theorem distributePrizes_one_shot_witness :
    isOk (distributePrizes prizeState 999 5 1 (fun _ _ => true)) = false ∧
    (match distributePrizes prizeState 999 10 1 (fun _ _ => true) with
      | Except.ok (st', _) => (st'.weeklyContests 1).prizesDistributed
      | Except.error _ => false) = true := by
  constructor
  · exact distributePrizes_one_shot.1 prizeState 999 5 1 (fun _ _ => true) (by norm_num [prizeState, prizeContest])
  · obtain ⟨st', ps, hok⟩ : ∃ st' ps,
        distributePrizes prizeState 999 10 1 (fun _ _ => true)
          = Except.ok (st', ps) := ⟨_, _, rfl⟩
    rw [hok]
    exact distributePrizes_one_shot.2.2.1 prizeState 999 10 1 (fun _ _ => true) st' ps hok

/-! ## Ranking: the leaderboard sort and the on-chain top-3 selection -/

/-- Truncate to the three winner slots, padding with the initial sentinel
slots — the shape of the slot array of `distributePrizes`. -/
def pad3 (l : List (Nat × Address)) : List (Nat × Address) :=
  (l ++ initialSlots).take 3

/-- Comparison by composite score. -/
def scoreLe (a b : Nat × Address) : Bool := decide (a.1 ≤ b.1)

/-- Insert after every element that compares `≤` (ties keep the earlier
element first), the stable insertion underlying the reference orderings
below. -/
def stableInsert {α : Type} (le : α → α → Bool) (x : α) : List α → List α
  | [] => [x]
  | y :: rest => if le y x then y :: stableInsert le x rest else x :: y :: rest

/-- Left-to-right stable insertion sort. -/
def stableSort {α : Type} (le : α → α → Bool) (l : List α) : List α :=
  l.foldl (fun acc x => stableInsert le x acc) []

/-- Ascending `(moves, time)` lexicographic order on submission rows
`(player, bestMoves, bestTime)`: the ordering the spec prescribes. -/
def lexLe (a b : Address × Nat × Nat) : Bool :=
  decide (a.2.1 < b.2.1) || (decide (a.2.1 = b.2.1) && decide (a.2.2 ≤ b.2.2))

/-- The MongoDB sort key of `GET /api/leaderboard/:contestId`
(`.sort({ moves: 1, timeTaken: 1 })`): ascending moves, ties by ascending
time. -/
def lbLe (a b : LeaderboardEntry) : Bool :=
  decide (a.moves < b.moves) ||
    (decide (a.moves = b.moves) && decide (a.timeTaken ≤ b.timeTaken))

/-- The completion order served by the leaderboard endpoint. -/
def sortLeaderboard (rows : List LeaderboardEntry) : List LeaderboardEntry :=
  stableSort lbLe rows

section RankingLemmas

lemma top3Insert_pad3 (x : Nat × Address) (l : List (Nat × Address))
    (hx : x.1 < MAXUINT) :
    top3Insert x.1 x.2 (pad3 l) = pad3 (stableInsert scoreLe x l) := by
  obtain ⟨xs, xp⟩ := x
  simp only at hx
  match l with
  | [] =>
    simp [pad3, initialSlots, top3Insert, stableInsert, hx]
  | [a] =>
    by_cases h1 : xs < a.1
    · simp [pad3, initialSlots, top3Insert, stableInsert, scoreLe, h1, hx, Nat.not_le.2 h1]
    · simp [pad3, initialSlots, top3Insert, stableInsert, scoreLe, h1, hx, Nat.not_lt.1 h1]
  | [a, b] =>
    by_cases h1 : xs < a.1
    · simp [pad3, initialSlots, top3Insert, stableInsert, scoreLe, h1, hx, Nat.not_le.2 h1]
    · by_cases h2 : xs < b.1
      · simp [pad3, initialSlots, top3Insert, stableInsert, scoreLe, h1, h2, hx,
          Nat.not_lt.1 h1, Nat.not_le.2 h2]
      · simp [pad3, initialSlots, top3Insert, stableInsert, scoreLe, h1, h2, hx,
          Nat.not_lt.1 h1, Nat.not_lt.1 h2]
  | a :: b :: c :: rest =>
    by_cases h1 : xs < a.1
    · simp [pad3, initialSlots, top3Insert, stableInsert, scoreLe, h1, Nat.not_le.2 h1]
    · by_cases h2 : xs < b.1
      · simp [pad3, initialSlots, top3Insert, stableInsert, scoreLe, h1, h2,
          Nat.not_lt.1 h1, Nat.not_le.2 h2]
      · by_cases h3 : xs < c.1
        · simp [pad3, initialSlots, top3Insert, stableInsert, scoreLe, h1, h2, h3,
            Nat.not_lt.1 h1, Nat.not_lt.1 h2, Nat.not_le.2 h3]
        · -- x goes past the three slots on both sides
          have hab : a.1 ≤ xs := Nat.not_lt.1 h1
          have hbb : b.1 ≤ xs := Nat.not_lt.1 h2
          have hcb : c.1 ≤ xs := Nat.not_lt.1 h3
          simp [pad3, initialSlots, top3Insert, stableInsert, scoreLe, h1, h2, h3,
            hab, hbb, hcb]

lemma findTopThree_aux (entries : List (Address × Nat × Nat))
    (h : ∀ e ∈ entries, compositeScore e.2.1 e.2.2 < MAXUINT) :
    ∀ acc : List (Nat × Address),
      entries.foldl (fun slots e =>
        if e.2.1 = 0 then slots
        else top3Insert (compositeScore e.2.1 e.2.2) e.1 slots) (pad3 acc)
      = pad3 (entries.foldl (fun acc' e =>
          if e.2.1 = 0 then acc'
          else stableInsert scoreLe (compositeScore e.2.1 e.2.2, e.1) acc') acc) := by
  induction entries with
  | nil => intro acc; rfl
  | cons e rest ih =>
    intro acc
    by_cases hz : e.2.1 = 0
    · simp only [List.foldl_cons, if_pos hz]
      exact ih (fun e' he' => h e' (List.mem_cons_of_mem e he')) acc
    · simp only [List.foldl_cons, if_neg hz]
      rw [top3Insert_pad3 (compositeScore e.2.1 e.2.2, e.1) acc
        (h e (List.mem_cons_self e rest))]
      exact ih (fun e' he' => h e' (List.mem_cons_of_mem e he')) _

lemma foldl_filter_toPair (entries : List (Address × Nat × Nat)) :
    ∀ acc : List (Nat × Address),
      entries.foldl (fun acc' e =>
        if e.2.1 = 0 then acc'
        else stableInsert scoreLe (compositeScore e.2.1 e.2.2, e.1) acc') acc
      = ((entries.filter fun e => decide (e.2.1 ≠ 0)).map
          fun e => (compositeScore e.2.1 e.2.2, e.1)).foldl
            (fun acc' p => stableInsert scoreLe p acc') acc := by
  induction entries with
  | nil => intro acc; rfl
  | cons e rest ih =>
    intro acc
    by_cases hz : e.2.1 = 0
    · have hp : (decide (e.2.1 ≠ 0)) = false := by simp [hz]
      simp only [List.foldl_cons, if_pos hz, List.filter_cons, hp, Bool.false_eq_true,
        if_false]
      exact ih acc
    · have hp : (decide (e.2.1 ≠ 0)) = true := by simp [hz]
      simp only [List.foldl_cons, if_neg hz, List.filter_cons, hp, if_true,
        List.map_cons]
      exact ih _

lemma findTopThree_eq_sorted (entries : List (Address × Nat × Nat))
    (h : ∀ e ∈ entries, compositeScore e.2.1 e.2.2 < MAXUINT) :
    findTopThree entries
      = pad3 (stableSort scoreLe ((entries.filter fun e => decide (e.2.1 ≠ 0)).map
          fun e => (compositeScore e.2.1 e.2.2, e.1))) := by
  have h0 : initialSlots = pad3 [] := rfl
  unfold findTopThree stableSort
  rw [h0, findTopThree_aux entries h [], foldl_filter_toPair entries []]

lemma scoreLe_toPair (a b : Address × Nat × Nat) (ha : a.2.2 < 1000) (hb : b.2.2 < 1000) :
    scoreLe (compositeScore a.2.1 a.2.2, a.1) (compositeScore b.2.1 b.2.2, b.1)
      = lexLe a b := by
  simp only [scoreLe, lexLe, compositeScore]
  rw [Bool.eq_iff_iff]
  simp only [Bool.or_eq_true, Bool.and_eq_true, decide_eq_true_eq]
  omega

lemma stableInsert_toPair_congr (x : Address × Nat × Nat)
    (acc : List (Address × Nat × Nat)) (hx : x.2.2 < 1000)
    (hacc : ∀ a ∈ acc, a.2.2 < 1000) :
    stableInsert scoreLe (compositeScore x.2.1 x.2.2, x.1)
        (acc.map fun e => (compositeScore e.2.1 e.2.2, e.1))
      = (stableInsert lexLe x acc).map fun e => (compositeScore e.2.1 e.2.2, e.1) := by
  induction acc with
  | nil => rfl
  | cons y rest ih =>
    simp only [List.map_cons, stableInsert]
    rw [scoreLe_toPair y x (hacc y (List.mem_cons_self y rest)) hx]
    cases hle : lexLe y x
    · simp only [Bool.false_eq_true, if_false, List.map_cons]
    · simp only [if_true, List.map_cons]
      rw [ih fun a ha => hacc a (List.mem_cons_of_mem y ha)]

lemma mem_stableInsert {α : Type} (le : α → α → Bool) (x a : α) (l : List α) :
    a ∈ stableInsert le x l ↔ a = x ∨ a ∈ l := by
  induction l with
  | nil => simp [stableInsert]
  | cons y rest ih =>
    simp only [stableInsert]
    cases hle : le y x
    · simp only [Bool.false_eq_true, if_false, List.mem_cons]
    · simp only [if_true, List.mem_cons, ih]
      tauto

lemma stableSort_toPair_aux (l : List (Address × Nat × Nat)) :
    ∀ acc : List (Address × Nat × Nat), (∀ e ∈ l, e.2.2 < 1000) →
      (∀ a ∈ acc, a.2.2 < 1000) →
      (l.map fun e => (compositeScore e.2.1 e.2.2, e.1)).foldl
          (fun a p => stableInsert scoreLe p a)
          (acc.map fun e => (compositeScore e.2.1 e.2.2, e.1))
        = (l.foldl (fun a x => stableInsert lexLe x a) acc).map
            fun e => (compositeScore e.2.1 e.2.2, e.1) := by
  induction l with
  | nil => intro acc _ _; rfl
  | cons x rest ih =>
    intro acc hl hacc
    simp only [List.map_cons, List.foldl_cons]
    rw [stableInsert_toPair_congr x acc (hl x (List.mem_cons_self x rest)) hacc]
    exact ih _ (fun e he => hl e (List.mem_cons_of_mem x he))
      (fun a ha => by
        rcases (mem_stableInsert lexLe x a acc).1 ha with rfl | ha'
        · exact hl a (List.mem_cons_self a rest)
        · exact hacc a ha')

lemma stableSort_toPair_congr (l : List (Address × Nat × Nat))
    (hl : ∀ e ∈ l, e.2.2 < 1000) :
    stableSort scoreLe (l.map fun e => (compositeScore e.2.1 e.2.2, e.1))
      = (stableSort lexLe l).map fun e => (compositeScore e.2.1 e.2.2, e.1) := by
  unfold stableSort
  exact stableSort_toPair_aux l [] hl (by simp)

lemma stableInsert_perm {α : Type} (le : α → α → Bool) (x : α) (l : List α) :
    List.Perm (stableInsert le x l) (x :: l) := by
  induction l with
  | nil => exact List.Perm.refl _
  | cons y rest ih =>
    simp only [stableInsert]
    cases hle : le y x
    · simp only [Bool.false_eq_true, if_false]
      exact List.Perm.refl _
    · simp only [if_true]
      exact (ih.cons y).trans (List.Perm.swap x y rest)

lemma stableSort_perm_aux {α : Type} (le : α → α → Bool) (l : List α) :
    ∀ acc : List α, List.Perm (l.foldl (fun a x => stableInsert le x a) acc) (acc ++ l) := by
  induction l with
  | nil => intro acc; simp
  | cons x rest ih =>
    intro acc
    simp only [List.foldl_cons]
    refine (ih _).trans ?_
    refine (List.Perm.append_right rest (stableInsert_perm le x acc)).trans ?_
    exact List.perm_middle.symm

lemma stableSort_perm {α : Type} (le : α → α → Bool) (l : List α) :
    List.Perm (stableSort le l) l :=
  stableSort_perm_aux le l []

lemma lexLe_total (a b : Address × Nat × Nat) (h : lexLe a b = false) : lexLe b a = true := by
  simp only [lexLe, Bool.or_eq_false_iff, Bool.and_eq_false_iff] at h
  simp only [lexLe, Bool.or_eq_true, Bool.and_eq_true, decide_eq_true_eq]
  rcases h with ⟨h1, h2⟩
  rcases h2 with h2 | h2 <;> simp only [decide_eq_false_iff_not] at h1 h2 <;> omega

lemma lexLe_trans (a b c : Address × Nat × Nat) (h1 : lexLe a b = true)
    (h2 : lexLe b c = true) : lexLe a c = true := by
  simp only [lexLe, Bool.or_eq_true, Bool.and_eq_true, decide_eq_true_eq] at h1 h2 ⊢
  omega

lemma pairwise_stableInsert {α : Type} (le : α → α → Bool)
    (htot : ∀ a b, le a b = false → le b a = true)
    (htrans : ∀ a b c, le a b = true → le b c = true → le a c = true)
    (x : α) (l : List α) (h : l.Pairwise (fun a b => le a b = true)) :
    (stableInsert le x l).Pairwise (fun a b => le a b = true) := by
  induction l with
  | nil => simp [stableInsert]
  | cons y rest ih =>
    rw [List.pairwise_cons] at h
    obtain ⟨hy, hrest⟩ := h
    simp only [stableInsert]
    cases hle : le y x
    · simp only [Bool.false_eq_true, if_false]
      rw [List.pairwise_cons]
      refine ⟨?_, List.pairwise_cons.2 ⟨hy, hrest⟩⟩
      intro b hb
      rcases List.mem_cons.1 hb with rfl | hb'
      · exact htot _ _ hle
      · exact htrans x y b (htot y x hle) (hy b hb')
    · simp only [if_true]
      rw [List.pairwise_cons]
      refine ⟨?_, ih hrest⟩
      intro b hb
      rcases (mem_stableInsert le x b rest).1 hb with rfl | hb'
      · exact hle
      · exact hy b hb'

lemma pairwise_stableSort {α : Type} (le : α → α → Bool)
    (htot : ∀ a b, le a b = false → le b a = true)
    (htrans : ∀ a b c, le a b = true → le b c = true → le a c = true)
    (l : List α) : (stableSort le l).Pairwise (fun a b => le a b = true) := by
  suffices haux : ∀ acc : List α, acc.Pairwise (fun a b => le a b = true) →
      (l.foldl (fun a x => stableInsert le x a) acc).Pairwise (fun a b => le a b = true) by
    exact haux [] (List.Pairwise.nil)
  induction l with
  | nil => intro acc hacc; exact hacc
  | cons x rest ih =>
    intro acc hacc
    exact ih _ (pairwise_stableInsert le htot htrans x acc hacc)

end RankingLemmas

/-- The value of `firstByte` is always a byte. -/
lemma firstByte_le (b : Nat) : firstByte b ≤ 255 := by
  have := Nat.mod_lt (b / 2 ^ 248) (show 0 < 2 ^ 8 by norm_num)
  unfold firstByte
  omega

/-- The three completion records of the spec example: `A` with (10, 50),
`B` with (10, 40), `C` with (9, 99). -/
def rowA : LeaderboardEntry :=
  { gameId := "ga", playerAddress := "A", contestId := 1, moves := 10, timeTaken := 50,
    completedAt := 0, boardSize := "", mineCount := 0 }

def rowB : LeaderboardEntry :=
  { rowA with gameId := "gb", playerAddress := "B", timeTaken := 40 }

def rowC : LeaderboardEntry :=
  { rowA with gameId := "gc", playerAddress := "C", moves := 9, timeTaken := 99 }

/-- The same example as on-chain submission rows for players 1, 2, 3. -/
def exampleEntries : List (Address × Nat × Nat) := [(1, 10, 50), (2, 10, 40), (3, 9, 99)]

/-- C4: ranking orders completions by ascending move count, ties broken by
ascending elapsed time.  (1) The leaderboard sort orders the example
`[(A,10,50), (B,10,40), (C,9,99)]` as `[C, B, A]`.  (2) `stableSort lexLe`
really is that ordering: a sorted permutation of its input.  (3) For every
set of submitted scores — submitted times are single proof bytes, hence
below 1000, and composite scores stay below the `uint256` sentinel — the
winner slots computed by the top-3 scan of `distributePrizes` are exactly
the first three submissions in `(moves, time)`-lexicographic order,
sentinel-padded.  (4) Every reachable on-chain `bestTime` is at most 255,
which grounds the time bound used in (3). -/
theorem ranking_orders_by_moves_then_time :
    sortLeaderboard [rowA, rowB, rowC] = [rowC, rowB, rowA] ∧
    (∀ l : List (Address × Nat × Nat),
      List.Perm (stableSort lexLe l) l ∧
        (stableSort lexLe l).Pairwise (fun a b => lexLe a b = true)) ∧
    (∀ entries : List (Address × Nat × Nat),
      (∀ e ∈ entries, e.2.2 < 1000 ∧ compositeScore e.2.1 e.2.2 < MAXUINT) →
      findTopThree entries
        = pad3 ((stableSort lexLe (entries.filter fun e => decide (e.2.1 ≠ 0))).map
            fun e => (compositeScore e.2.1 e.2.2, e.1))) ∧
    (∀ s1 s2, LedgerStep s1 s2 →
      (∀ id p, (s1.weeklyContests id).bestTime p ≤ 255) →
      ∀ id p, (s2.weeklyContests id).bestTime p ≤ 255) := by
  refine ⟨rfl, ?_, ?_, ?_⟩
  · intro l
    exact ⟨stableSort_perm lexLe l, pairwise_stableSort lexLe lexLe_total lexLe_trans l⟩
  · intro entries h
    rw [findTopThree_eq_sorted entries (fun e he => (h e he).2),
      stableSort_toPair_congr _ (fun e he => (h e (List.mem_of_mem_filter he)).1)]
  · intro s1 s2 hstep hbnd id p
    cases hstep with
    | create hok =>
      simp only [createWeeklyContest] at hok
      split at hok
      · cases hok
      · split at hok
        · cases hok
        · split at hok
          · cases hok
          · cases hok
            simp only [setContest]
            by_cases hid : id = s1.currentContestId + 1
            · rw [if_pos hid]
              exact hbnd _ p
            · rw [if_neg hid]
              exact hbnd id p
    | enter hok =>
      rename_i sender value timestamp contestId commitment
      simp only [enterContest] at hok
      split at hok
      · cases hok
      · split at hok
        · cases hok
        · split at hok
          · cases hok
          · split at hok
            · cases hok
            · cases hok
              simp only [setContest]
              by_cases hid : id = contestId
              · rw [if_pos hid]
                exact hbnd contestId p
              · rw [if_neg hid]
                exact hbnd id p
    | submit hok =>
      rename_i sender timestamp contestId moves secret proof
      simp only [submitGameCompletion] at hok
      split at hok
      · cases hok
      · split at hok
        · cases hok
        · split at hok
          · cases hok
          · split at hok
            · cases hok
            · split at hok
              · cases hok
                simp only [setContest]
                by_cases hid : id = contestId
                · rw [if_pos hid]
                  by_cases hp : p = sender
                  · simp only [hp, if_pos rfl]
                    exact firstByte_le proof
                  · simp only [if_neg hp]
                    exact hbnd contestId p
                · rw [if_neg hid]
                  exact hbnd id p
              · cases hok
                exact hbnd id p
    | distribute hok =>
      rename_i sender timestamp contestId callOk payments
      simp only [distributePrizes] at hok
      split at hok
      · cases hok
      · split at hok
        · cases hok
        · split at hok
          · cases hok
          · split at hok
            · cases hok
            · split at hok
              · cases hok
              · split at hok
                · cases hok
                · split at hok
                  · cases hok
                  · cases hok
                    simp only [setContest]
                    by_cases hid : id = contestId <;> simp [hid] <;> exact hbnd _ p
    | setFee hok =>
      simp only [updatePlatformFee] at hok
      split at hok
      · cases hok
      · split at hok
        · cases hok
        · cases hok
          exact hbnd id p
    | setReceiver hok =>
      simp only [updateFeeReceiver] at hok
      split at hok
      · cases hok
      · split at hok
        · cases hok
        · cases hok
          exact hbnd id p

/-- Witness for C4: on the example submissions the top-3 scan returns
players 3, 2, 1 with their composite scores, matching the lexicographic
order `[C, B, A]`. -/
theorem ranking_orders_witness :
    findTopThree exampleEntries = [(9099, 3), (10040, 2), (10050, 1)] := by
  have h := ranking_orders_by_moves_then_time.2.2.1 exampleEntries (by decide)
  rw [h]
  rfl


end Minesweeper
